import Mathlib

/-!
Verification development for the consultant-copilot repository.

The Python services are shallowly embedded as executable Lean definitions:

* the diversified vector retrieval of `src/services/rag_service.py`
  (`search_similar_diversified` / `search_telegram_diversified` and the
  cascade inside `RAGService.ask`) is modelled over lists of candidate
  rows carrying their cosine distance to the query vector (the distance
  itself is computed by the database and is treated as given data);
* the Telegram watcher (`src/telegram_watcher/handlers.py` and
  `catchup.py`), the sync service
  (`src/services/telegram_sync_service.py`) and the meeting embedding
  service (`src/services/embedding_service.py`) are modelled as explicit
  state transformers over the durable store;
* the date-range and client-filter parsing of `rag_service.py` is
  embedded directly over character lists, including the regular
  expressions that the code uses, specialised to deterministic scanners
  equivalent on the inputs considered;
* the `/api/rag/ask` route of `src/api/routes/rag.py` is modelled with
  Python tuple-unpacking semantics made explicit.

External collaborators (OpenAI embeddings, the LLM, Telethon, the
langchain chunker) are parameters of the corresponding definitions.
-/

namespace CCopilot

/-! ### Character and string helpers (Python `str` semantics on the alphabets used) -/

/-- Models `str.lower()` restricted to ASCII letters and the Russian alphabet,
which is all the code's inputs use. -/
def lowerChar (c : Char) : Char :=
  if 'A' ≤ c ∧ c ≤ 'Z' then Char.ofNat (c.toNat + 32)
  else if 'А' ≤ c ∧ c ≤ 'Я' then Char.ofNat (c.toNat + 32)
  else if c = 'Ё' then 'ё'
  else c

def lowerChars (l : List Char) : List Char := l.map lowerChar

/-- Python `needle in hay` for strings, over character lists. -/
def listContains (hay needle : List Char) : Bool :=
  match hay with
  | [] => needle.isEmpty
  | _ :: t => needle.isPrefixOf hay || listContains t needle

/-- Split at the first occurrence of `sep`, returning the part before and after. -/
def splitFirst (sep : List Char) : List Char → Option (List Char × List Char)
  | [] => none
  | c :: t =>
    if sep.isPrefixOf (c :: t) then some ([], (c :: t).drop sep.length)
    else (splitFirst sep t).map (fun p => (c :: p.1, p.2))

/-- Models `s.split(sep)[0]`: the text before the first occurrence of `sep`
(the whole string when `sep` does not occur). -/
def beforeFirstSep (sep l : List Char) : List Char :=
  match splitFirst sep l with
  | none => l
  | some p => p.1

/-- Python `str.strip()`. -/
def trimChars (l : List Char) : List Char :=
  ((l.dropWhile Char.isWhitespace).reverse.dropWhile Char.isWhitespace).reverse

/-- Python `str.split()` with no argument: split on whitespace runs, dropping
empty pieces. -/
def splitWs (l : List Char) : List (List Char) :=
  let fin := l.foldl
    (fun (acc : List (List Char) × List Char) c =>
      if c.isWhitespace then
        (if acc.2.isEmpty then acc else (acc.1 ++ [acc.2.reverse], []))
      else (acc.1, c :: acc.2))
    ([], [])
  if fin.2.isEmpty then fin.1 else fin.1 ++ [fin.2.reverse]

/-! ### Diversified retrieval (`search_similar_diversified`, `search_telegram_diversified`)

A candidate row of the `ranked_chunks` CTE: one embedding row joined with
its parent, carrying the cosine distance `e.embedding <=> query` computed
by the database for the current query vector, its partition key
(`meeting_id` for the meeting corpus, `chat_id` for the chat corpus) and
the outcome of the optional WHERE filters for the current call. `rowId`
is the table primary key, used only to make the SQL's arbitrary tie order
deterministic. -/

structure ChunkRow where
  rowId : Nat
  groupId : Nat
  dist : ℚ
  clientMatch : Bool
  titleMatch : Bool
  dateMatch : Bool
deriving DecidableEq, Repr

/-- Rational subtraction written out on numerators and denominators, so
that it evaluates by kernel reduction (the library subtraction is marked
irreducible); `ratSub_eq` below proves it equal to `a - b`. -/
def ratSub (a b : ℚ) : ℚ := mkRat (a.num * b.den - b.num * a.den) (a.den * b.den)

/-- Models `similarity = 1 - (e.embedding <=> query)` as selected by the SQL
(`similarity_sub` below restates it as `1 - r.dist`). -/
def similarity (r : ChunkRow) : ℚ := ratSub (mkRat 1 1) r.dist

/-- Ordering used by `ROW_NUMBER() OVER (PARTITION BY … ORDER BY e.embedding <=> query)`;
ties (equal distance) are broken deterministically by primary key. -/
def distBefore (a b : ChunkRow) : Bool :=
  decide (a.dist < b.dist ∨ (a.dist = b.dist ∧ a.rowId < b.rowId))

/-- Models `chunk_rank` of row `r` within the candidate set `rows`:
`ROW_NUMBER() OVER (PARTITION BY groupId ORDER BY dist)`. -/
def chunkRank (rows : List ChunkRow) (r : ChunkRow) : Nat :=
  1 + (rows.filter (fun s => s.groupId == r.groupId && distBefore s r)).length

/-- The outer SELECT's WHERE clause:
`chunk_rank <= :max_chunks_per_group AND similarity > :min_similarity`. -/
def rankedSelect (maxPerGroup : Nat) (minSim : ℚ) (rows : List ChunkRow) : List ChunkRow :=
  rows.filter (fun r => decide (chunkRank rows r ≤ maxPerGroup ∧ minSim < similarity r))

/-- Models `ORDER BY similarity DESC` is ascending cosine distance. -/
def simOrder (a b : ChunkRow) : Prop := a.dist ≤ b.dist

instance : DecidableRel simOrder := fun a b => inferInstanceAs (Decidable (a.dist ≤ b.dist))

instance : IsTotal ChunkRow simOrder := ⟨fun a b => le_total a.dist b.dist⟩

instance : IsTrans ChunkRow simOrder := ⟨fun _ _ _ h1 h2 => le_trans h1 h2⟩

/-- The diversified query applied to a candidate set: rank within each group,
keep rank ≤ `maxPerGroup` and similarity > `minSim`, `ORDER BY similarity DESC`,
`LIMIT maxTotal`. -/
def diversify (maxPerGroup maxTotal : Nat) (minSim : ℚ) (rows : List ChunkRow) : List ChunkRow :=
  (List.insertionSort simOrder (rankedSelect maxPerGroup minSim rows)).take maxTotal

/-- WHERE conditions of `search_similar_diversified`: each is added only when
the corresponding filter argument is not None. -/
def rowPassesFilters (useClient useTitle useDate : Bool) (r : ChunkRow) : Bool :=
  (!useClient || r.clientMatch) && (!useTitle || r.titleMatch) && (!useDate || r.dateMatch)

/-- Models `RAGService.search_similar_diversified`: filter the joined rows by the
active WHERE conditions (inside the CTE, hence before ranking), then run the
diversified query. -/
def searchSimilarDiversified (maxPerGroup maxTotal : Nat) (minSim : ℚ)
    (useClient useTitle useDate : Bool) (rows : List ChunkRow) : List ChunkRow :=
  diversify maxPerGroup maxTotal minSim (rows.filter (rowPassesFilters useClient useTitle useDate))

/-- Models `RAGService.search_telegram_diversified`: same query shape over the chat
corpus (`groupId` is the chat id; there is no title filter). -/
def searchTelegramDiversified (maxPerGroup maxTotal : Nat) (minSim : ℚ)
    (useClient useDate : Bool) (rows : List ChunkRow) : List ChunkRow :=
  diversify maxPerGroup maxTotal minSim
    (rows.filter (fun r => (!useClient || r.clientMatch) && (!useDate || r.dateMatch)))

/-- The meeting-side cascade of `RAGService.ask` (lines 610–648):
`hasClient` is `client_id is not None`, `hasTitle` is the inferred title
filter, `hasDate` the parsed date range. -/
def askMeetingSide (rows : List ChunkRow) (hasClient hasTitle hasDate : Bool) : List ChunkRow :=
  if hasTitle || hasClient || hasDate then
    let r1 := searchSimilarDiversified 2 20 (3/20) hasClient hasTitle hasDate rows
    let r2 := if r1.length < 3 ∧ hasDate = true then
        searchSimilarDiversified 2 20 (3/20) hasClient hasTitle false rows
      else r1
    if r2.length < 3 ∧ hasTitle = true then
      searchSimilarDiversified 1 15 (1/5) hasClient false false rows
    else r2
  else
    searchSimilarDiversified 1 15 (1/5) false false false rows

/-! ### The `/api/rag/ask` route (`src/api/routes/rag.py`, `ask_question`)

`RAGService.ask` returns the Python tuple
`(response.content, meeting_sources, telegram_sources)` — three values on
both of its return statements (lines 682 and 739).  The route body executes
`answer, sources = await rag.ask(...)`, which in Python requires the tuple to
have exactly two elements; otherwise a `ValueError` is raised, caught by the
route's `except Exception` and converted to `HTTPException(status_code=500)`. -/

inductive PyValue where
  | pyStr : String → PyValue
  | meetingResults : List ChunkRow → PyValue
  | telegramResults : List ChunkRow → PyValue
deriving DecidableEq, Repr

/-- The tuple value returned by `RAGService.ask`, as a Python tuple (a
heterogeneous sequence). -/
def ragAskReturn (answer : String) (meetingSources telegramSources : List ChunkRow) :
    List PyValue :=
  [PyValue.pyStr answer, PyValue.meetingResults meetingSources,
   PyValue.telegramResults telegramSources]

/-- Python tuple unpacking `a, b = t`: succeeds exactly when the tuple has
two elements, raises `ValueError` otherwise. -/
def unpackPair {α : Type} (t : List α) : Option (α × α) :=
  match t with
  | [a, b] => some (a, b)
  | _ => none

/-- HTTP status returned by `ask_question` for a valid request body: 200 on
the success path, 500 when the handler body raises (the `except Exception`
branch). -/
def askQuestionStatus (answer : String) (meetingSources telegramSources : List ChunkRow) :
    Nat :=
  match unpackPair (ragAskReturn answer meetingSources telegramSources) with
  | some _ => 200
  | none => 500

/-! ### Telegram watcher durable state
(`src/telegram_watcher/handlers.py`, `catchup.py`,
`src/services/telegram_sync_service.py`)

Rows of `telegram_messages`, `telegram_embeddings` and `telegram_chats`
restricted to the columns the claims are about.  Embedding vectors are data
from the external model and are not represented; whether the external call
succeeds is the `embedOk` parameter (an exception rolls the unit back). -/

structure ChatMessageRow where
  chatId : Int
  messageId : Int
  text : String
deriving DecidableEq, Repr

structure ChatEmbeddingRow where
  chatId : Int
  messageId : Int
  chunkText : String
  chunkIndex : Nat
deriving DecidableEq, Repr

structure ChatRoomRow where
  id : Int
  lastSyncedMessageId : Option Int
  isActive : Bool
deriving DecidableEq, Repr

/-- The durable store as seen by the watcher: committed rows only. -/
structure WatcherState where
  messages : List ChatMessageRow
  embeddings : List ChatEmbeddingRow
  rooms : List ChatRoomRow
deriving DecidableEq, Repr

/-- Models `MessageHandler.MIN_TEXT_LENGTH` (= `telegram_sync_service.MIN_TEXT_LENGTH`). -/
def minTextLength : Nat := 50

/-- The duplicate check: does a `(chat_id, message_id)` row already exist? -/
def containsMessage (st : WatcherState) (c m : Int) : Bool :=
  st.messages.any fun r => r.chatId == c && r.messageId == m

/-- Models `last_synced_message_id` of chat `c` (None when the room is absent or the
column is NULL). -/
def roomCursor (st : WatcherState) (c : Int) : Option Int :=
  match st.rooms.find? (fun r => r.id == c) with
  | some r => r.lastSyncedMessageId
  | none => none

/-- Models `UPDATE telegram_chats SET last_synced_message_id = v WHERE id = c`. -/
def setCursor (st : WatcherState) (c v : Int) : WatcherState :=
  { st with rooms := st.rooms.map fun r =>
      if r.id == c then { r with lastSyncedMessageId := some v } else r }

/-- Models `MessageHandler._save_and_index_message`: drop short/absent text, skip
duplicates, otherwise insert the message and its embedding and set the
room's cursor to the message id, committing the three writes together;
an embedding failure rolls the whole unit back. -/
def saveAndIndexMessage (embedOk : String → Bool) (st : WatcherState)
    (chatId messageId : Int) (text : Option String) : WatcherState × Bool :=
  match text with
  | none => (st, false)
  | some t =>
    if t.length < minTextLength then (st, false)
    else if containsMessage st chatId messageId then (st, false)
    else if embedOk t then
      (setCursor
        { st with
          messages := st.messages ++ [{ chatId := chatId, messageId := messageId, text := t }],
          embeddings := st.embeddings ++
            [{ chatId := chatId, messageId := messageId, chunkText := t, chunkIndex := 0 }] }
        chatId messageId, true)
    else (st, false)

/-- A message as delivered by the chat network (Telethon). -/
structure NetworkMessage where
  chatId : Int
  id : Int
  text : Option String
deriving DecidableEq, Repr

def idOrder (a b : NetworkMessage) : Prop := a.id ≤ b.id

instance : DecidableRel idOrder := fun a b => inferInstanceAs (Decidable (a.id ≤ b.id))

instance : IsTotal NetworkMessage idOrder := ⟨fun a b => le_total a.id b.id⟩

instance : IsTrans NetworkMessage idOrder := ⟨fun _ _ _ h1 h2 => le_trans h1 h2⟩

/-- Models `CatchupService.catchup_chat`: iterate the chat's messages with id
strictly greater than `min_id or 0`, oldest first, and drive every message
with text of length ≥ 50 through `_save_and_index_message`; returns the
number of newly indexed messages. -/
def catchupChat (embedOk : String → Bool) (network : List NetworkMessage)
    (st : WatcherState) (chatId : Int) (minId : Option Int) : WatcherState × Nat :=
  let msgs := List.insertionSort idOrder
    (network.filter fun m => m.chatId == chatId && decide (minId.getD 0 < m.id))
  msgs.foldl
    (fun acc m =>
      match m.text with
      | some t =>
        if minTextLength ≤ t.length then
          let r := saveAndIndexMessage embedOk acc.1 chatId m.id (some t)
          (r.1, acc.2 + (if r.2 then 1 else 0))
        else acc
      | none => acc)
    (st, 0)

/-- Models `CatchupService.catchup_all_chats`: read the active rooms and their
cursors once, then catch each room up from its stored cursor. -/
def catchupAllChats (embedOk : String → Bool) (network : List NetworkMessage)
    (st : WatcherState) : WatcherState :=
  (st.rooms.filter (·.isActive)).foldl
    (fun s chat => (catchupChat embedOk network s chat.id chat.lastSyncedMessageId).1) st

structure SyncStats where
  totalFetched : Nat
  newMessages : Nat
  skipped : Nat
deriving DecidableEq, Repr

/-- One iteration of the message loop of
`TelegramSyncService.sync_chat_messages`: count the fetch, skip messages
without text and duplicates, otherwise persist the message row (with no
length threshold) and track the running maximum id. -/
def syncStep (chatId : Int) (acc : WatcherState × Int × SyncStats) (m : NetworkMessage) :
    WatcherState × Int × SyncStats :=
  let stats := { acc.2.2 with totalFetched := acc.2.2.totalFetched + 1 }
  match m.text with
  | none => (acc.1, acc.2.1, { stats with skipped := stats.skipped + 1 })
  | some t =>
    if t = "" then (acc.1, acc.2.1, { stats with skipped := stats.skipped + 1 })
    else if containsMessage acc.1 chatId m.id then
      (acc.1, acc.2.1, { stats with skipped := stats.skipped + 1 })
    else
      ({ acc.1 with messages := acc.1.messages ++
          [{ chatId := chatId, messageId := m.id, text := t }] },
       (if acc.2.1 < m.id then m.id else acc.2.1),
       { stats with newMessages := stats.newMessages + 1 })

/-- Models `TelegramSyncService.sync_chat_messages`: requires the chat to be
registered (else the code raises, modelled as `none`); iterates messages
with id above the stored cursor oldest-first through `syncStep`, and
finally commits the cursor.  No embeddings are created on this path. -/
def syncChatMessages (network : List NetworkMessage) (st : WatcherState)
    (chatId : Int) : Option (WatcherState × SyncStats) :=
  match st.rooms.find? (fun r => r.id == chatId) with
  | none => none
  | some chat =>
    let last0 : Int := chat.lastSyncedMessageId.getD 0
    let msgs := List.insertionSort idOrder
      (network.filter fun m => m.chatId == chatId && decide (last0 < m.id))
    let r := msgs.foldl (syncStep chatId)
      (st, last0, { totalFetched := 0, newMessages := 0, skipped := 0 })
    some (setCursor r.1 chatId r.2.1, r.2.2)

/-- One iteration of the indexing loop of
`TelegramSyncService.index_chat_messages` (batches collapsed to single
messages; an upstream failure leaves the row unindexed either way). -/
def indexStep (chatId : Int) (embedOk : String → Bool) (s : WatcherState)
    (msg : ChatMessageRow) : WatcherState :=
  if embedOk msg.text then
    { s with embeddings := s.embeddings ++
        [{ chatId := chatId, messageId := msg.messageId, chunkText := msg.text,
           chunkIndex := 0 }] }
  else s

/-- Models `TelegramSyncService.index_chat_messages`: embed the chat's messages that
have no embedding yet, skipping any with text shorter than
`min_text_length` (default 50). -/
def indexChatMessages (embedOk : String → Bool) (st : WatcherState) (chatId : Int)
    (minLen : Nat) : WatcherState :=
  let pending := st.messages.filter fun msg =>
    msg.chatId == chatId &&
      !(st.embeddings.any fun e => e.chatId == chatId && e.messageId == msg.messageId)
  let toIndex := pending.filter fun msg => decide (minLen ≤ msg.text.length)
  toIndex.foldl (indexStep chatId embedOk) st

/-! ### Meeting embedding service (`src/services/embedding_service.py`)

The chunker (`chunk_transcript`, a langchain text splitter) and the batched
embedding call are external collaborators, passed in as `chunkFn` and
`embedDocs` (the latter returning whether the upstream call succeeded). -/

structure MeetingRow where
  id : Nat
  transcript : Option String
deriving DecidableEq, Repr

structure MeetingEmbeddingRow where
  meetingId : Nat
  chunkText : String
  chunkIndex : Nat
deriving DecidableEq, Repr

structure MeetingStore where
  meetings : List MeetingRow
  embeddings : List MeetingEmbeddingRow
deriving DecidableEq, Repr

/-- Models `EmbeddingService.index_meeting`: returns the committed store and the
chunk count, or an error when the embedding call raises (in which case
nothing was committed by this call). -/
def indexMeeting (chunkFn : String → List String) (embedDocs : List String → Bool)
    (st : MeetingStore) (mid : Nat) : Except Unit (MeetingStore × Nat) :=
  match st.meetings.find? (fun m => m.id == mid) with
  | none => .ok (st, 0)
  | some meeting =>
    match meeting.transcript with
    | none => .ok (st, 0)
    | some tr =>
      if tr = "" then .ok (st, 0)
      else if st.embeddings.any (fun e => e.meetingId == mid) then .ok (st, 0)
      else
        let chunks := chunkFn tr
        if chunks = [] then .ok (st, 0)
        else if embedDocs chunks then
          let newRows := chunks.enum.map
            (fun p => { meetingId := mid, chunkText := p.2, chunkIndex := p.1 })
          .ok ({ st with embeddings := st.embeddings ++ newRows }, chunks.length)
        else .error ()

/-- Models `EmbeddingService.reindex_meeting`: delete the meeting's embedding rows
and `commit()` that deletion, then call `index_meeting`.  The middle
component is the sequence of durable states committed by this call (the
deletion commit, then the indexing commit when one happens). -/
def reindexMeeting (chunkFn : String → List String) (embedDocs : List String → Bool)
    (st : MeetingStore) (mid : Nat) : MeetingStore × List MeetingStore × Except Unit Nat :=
  let st1 := { st with embeddings := st.embeddings.filter (fun e => !(e.meetingId == mid)) }
  match indexMeeting chunkFn embedDocs st1 mid with
  | .error _ => (st1, [st1], .error ())
  | .ok (st2, n) => (st2, [st1] ++ (if 0 < n then [st2] else []), .ok n)

instance {e a : Type} [DecidableEq e] [DecidableEq a] : DecidableEq (Except e a) := fun x y =>
  match x, y with
  | .error e1, .error e2 =>
    if h : e1 = e2 then isTrue (by rw [h]) else isFalse (fun hh => by cases hh; exact h rfl)
  | .ok a1, .ok a2 =>
    if h : a1 = a2 then isTrue (by rw [h]) else isFalse (fun hh => by cases hh; exact h rfl)
  | .error _, .ok _ => isFalse (fun hh => Except.noConfusion hh)
  | .ok _, .error _ => isFalse (fun hh => Except.noConfusion hh)

/-! ### Client-filter inference
(`RAGService._find_client_filter`, `RAGService._find_telegram_client_filter`)

The Python code makes a single pass over the candidate names with one shared
`best_match_len`: a candidate whose whole lowercased name occurs in the
question competes with the per-word fallback of every other candidate.
Candidate iteration order comes from a Python `set`; the model uses
first-insertion order (all claims below are insensitive to ties). -/

/-- The inner `for word in name_lower.split()` loop of the matcher. -/
def scanWords (q nameOrig : List Char) (b : Option (List Char) × Nat) :
    Option (List Char) × Nat :=
  (splitWs (lowerChars nameOrig)).foldl
    (fun b w =>
      if 3 < w.length then
        if listContains q w then
          if b.2 < w.length then (some nameOrig, w.length) else b
        else b
      else b)
    b

/-- One iteration of the `for client_name in client_names` loop. -/
def matchStep (q : List Char) (b : Option (List Char) × Nat) (name : List Char) :
    Option (List Char) × Nat :=
  let nl := lowerChars name
  if listContains q nl then
    if b.2 < nl.length then (some name, nl.length) else b
  else scanWords q name b

/-- The shared best-match loop of both filter-inference functions, applied to
the already-lowercased question. -/
def bestClientMatch (names : List (List Char)) (q : List Char) : Option (List Char) :=
  (names.foldl (matchStep q) (none, 0)).1

def addUnique (l : List (List Char)) (x : List Char) : List (List Char) :=
  if l.contains x then l else l ++ [x]

/-- Candidate client names extracted from meeting titles: the stripped part
before the first `" - "`, when longer than 2 characters, collected into a
set (modelled with first-insertion order). -/
def extractClientNames (titles : List (List Char)) : List (List Char) :=
  titles.foldl
    (fun acc t =>
      let c := trimChars (beforeFirstSep " - ".data t)
      if 2 < c.length then addUnique acc c else acc)
    []

/-- Models `RAGService._find_client_filter` over the distinct non-null meeting titles. -/
def findClientFilter (titles : List String) (question : String) : Option String :=
  (bestClientMatch (extractClientNames (titles.map String.data))
    (lowerChars question.data)).map fun l => String.mk l

/-- Models `RAGService._find_telegram_client_filter` over the distinct non-null
`telegram_chats.client_name` values. -/
def findTelegramClientFilter (clientNames : List String) (question : String) : Option String :=
  (bestClientMatch (clientNames.map String.data) (lowerChars question.data)).map
    fun l => String.mk l

/-- Specification-side score of one word in the fallback: its length when it
is longer than 3 characters and occurs in the question, 0 otherwise. -/
def wordScore (q w : List Char) : Nat :=
  if 3 < w.length then (if listContains q w then w.length else 0) else 0

/-- Maximum `wordScore` over a list of words. -/
def wordsMax (q : List Char) : List (List Char) → Nat
  | [] => 0
  | w :: t => max (wordScore q w) (wordsMax q t)

/-- Specification-side score of a candidate: the length of its whole
lowercased name when that occurs in the question, else its best qualifying
word score. -/
def clientScore (q name : List Char) : Nat :=
  let nl := lowerChars name
  if listContains q nl then nl.length else wordsMax q (splitWs nl)

/-- Maximum `clientScore` over the candidate list. -/
def maxClientScore (q : List Char) : List (List Char) → Nat
  | [] => 0
  | n :: t => max (clientScore q n) (maxClientScore q t)

/-! ### Date-range parsing (`RAGService._parse_date_range`, `_quarter_to_range`)

`datetime` values are embedded as plain calendar records (microseconds, left
at zero by every constructor the code uses on the paths modelled, are
omitted).  The regular expressions of the code are specialised to
deterministic left-to-right scanners; on all patterns used the greedy
classes are disjoint from what follows them, so no backtracking is lost. -/

structure PyDateTime where
  year : Nat
  month : Nat
  day : Nat
  hour : Nat
  minute : Nat
  second : Nat
deriving DecidableEq, Repr

/-- The `DateRange` dataclass; `stop` models the Python field `end`. -/
structure PyDateRange where
  start : PyDateTime
  stop : PyDateTime
  description : String
deriving DecidableEq, Repr

def isLeap (y : Nat) : Bool := (y % 4 == 0 && y % 100 != 0) || y % 400 == 0

def daysInMonth (y m : Nat) : Nat :=
  if m = 2 then (if isLeap y then 29 else 28)
  else if m = 4 ∨ m = 6 ∨ m = 9 ∨ m = 11 then 30 else 31

/-- Models `d - timedelta(days=1)` on the calendar part. -/
def prevDay (d : PyDateTime) : PyDateTime :=
  if 1 < d.day then { d with day := d.day - 1 }
  else if 1 < d.month then { d with month := d.month - 1, day := daysInMonth d.year (d.month - 1) }
  else { d with year := d.year - 1, month := 12, day := 31 }

/-- Models `d - timedelta(days=n)`. -/
def subDays : Nat → PyDateTime → PyDateTime
  | 0, d => d
  | n + 1, d => subDays n (prevDay d)

def isDigitChar (c : Char) : Bool := '0' ≤ c && c ≤ '9'

def digitVal (c : Char) : Nat := c.toNat - '0'.toNat

/-- Match `\d{4}` at the head, returning the value and the rest. -/
def takeYear4 : List Char → Option (Nat × List Char)
  | a :: b :: c :: d :: rest =>
    if isDigitChar a && isDigitChar b && isDigitChar c && isDigitChar d then
      some (1000 * digitVal a + 100 * digitVal b + 10 * digitVal c + digitVal d, rest)
    else none
  | _ => none

/-- Match `[1-4]` at the head. -/
def takeDigit14 : List Char → Option (Nat × List Char)
  | c :: rest => if '1' ≤ c && c ≤ '4' then some (digitVal c, rest) else none
  | [] => none

/-- Greedy `\s*`. -/
def skipWs (l : List Char) : List Char := l.dropWhile Char.isWhitespace

/-- Greedy `\d+` at the head. -/
def takeDigits1 (l : List Char) : Option (Nat × List Char) :=
  let ds := l.takeWhile isDigitChar
  if ds.isEmpty then none
  else some (ds.foldl (fun a c => 10 * a + digitVal c) 0, l.dropWhile isDigitChar)

/-- Models `re.search`: try the head matcher at each position, leftmost first. -/
def scanAux {β : Type} (f : List Char → Option β) : List Char → Option β
  | [] => none
  | c :: t =>
    match f (c :: t) with
    | some r => some r
    | none => scanAux f t

/-- Models `re.search(r'(\d{4})', …)`, used for the year of word-quarters and months. -/
def findYear4 (l : List Char) : Option Nat :=
  scanAux (fun s => (takeYear4 s).map Prod.fst) l

/-- Models `q([1-4])\s*(\d{4})` at the head. -/
def matchQ1 : List Char → Option (Nat × Nat)
  | 'q' :: rest => do
    let (q, r1) ← takeDigit14 rest
    let (y, _) ← takeYear4 (skipWs r1)
    pure (q, y)
  | _ => none

/-- Models `(\d{4})\s*q([1-4])` at the head. -/
def matchQ2 (l : List Char) : Option (Nat × Nat) := do
  let (y, r1) ← takeYear4 l
  match skipWs r1 with
  | 'q' :: r2 => do
    let (q, _) ← takeDigit14 r2
    pure (q, y)
  | _ => none

/-- The optional `(?:й|ый|ой|ий)?` suffix (first-character-disjoint ordered
alternation). -/
def matchQSuffix : List Char → List Char
  | 'й' :: t => t
  | 'ы' :: 'й' :: t => t
  | 'о' :: 'й' :: t => t
  | 'и' :: 'й' :: t => t
  | l => l

def kvartalChars : List Char := "квартал".data

/-- Models `([1-4])\s*(?:й|ый|ой|ий)?\s*квартал\s*(\d{4})` at the head. -/
def matchQ3 (l : List Char) : Option (Nat × Nat) := do
  let (q, r1) ← takeDigit14 l
  let r2 := skipWs (matchQSuffix (skipWs r1))
  if kvartalChars.isPrefixOf r2 then
    let (y, _) ← takeYear4 (skipWs (r2.drop kvartalChars.length))
    pure (q, y)
  else none

/-- Models `([1-4])\s*(?:й|ый|ой|ий)?\s*квартал` at the head. -/
def matchQ4 (l : List Char) : Option Nat := do
  let (q, r1) ← takeDigit14 l
  let r2 := skipWs (matchQSuffix (skipWs r1))
  if kvartalChars.isPrefixOf r2 then pure q else none

/-- The `quarter_words` dict in insertion order. -/
def quarterWords : List (List Char × Nat) :=
  [("первый".data, 1), ("первого".data, 1), ("первом".data, 1),
   ("второй".data, 2), ("второго".data, 2), ("втором".data, 2),
   ("третий".data, 3), ("третьего".data, 3), ("третьем".data, 3),
   ("четвертый".data, 4), ("четвертого".data, 4), ("четвертом".data, 4)]

/-- The word-quarter loop: first dict entry contained in the question, when
the question also contains `квартал`. -/
def firstWordQuarter (ql : List Char) : Option Nat :=
  quarterWords.findSome? fun p =>
    if listContains ql p.1 && listContains ql kvartalChars then some p.2 else none

/-- Models `\w` with the `re.UNICODE` default, on the alphabets used. -/
def isWordCharRu (c : Char) : Bool :=
  ('a' ≤ c && c ≤ 'z') || ('A' ≤ c && c ≤ 'Z') || ('0' ≤ c && c ≤ '9') || c = '_' ||
  ('а' ≤ c && c ≤ 'я') || ('А' ≤ c && c ≤ 'Я') || c = 'ё' || c = 'Ё'

/-- Models `stem\w*\s+noun` at the head (e.g. `прошл\w*\s+квартал`). -/
def matchStemNoun (stem noun l : List Char) : Option Unit :=
  if stem.isPrefixOf l then
    match (l.drop stem.length).dropWhile isWordCharRu with
    | c :: t =>
      if c.isWhitespace && noun.isPrefixOf (t.dropWhile Char.isWhitespace) then some ()
      else none
    | [] => none
  else none

/-- Models `re.search(r'прошл\w*\s+<noun>|предыдущ\w*\s+<noun>', …)`. -/
def searchPast (noun ql : List Char) : Bool :=
  (scanAux (matchStemNoun "прошл".data noun) ql).isSome ||
  (scanAux (matchStemNoun "предыдущ".data noun) ql).isSome

/-- Models `(?:за|в|на)\s*(\d{4})\s*(?:год|г\.?)?` at the head (the trailing
optional group never affects whether the year group matches). -/
def matchYearExpr (l : List Char) : Option Nat :=
  let afterKw : Option (List Char) :=
    if "за".data.isPrefixOf l then some (l.drop 2)
    else if "в".data.isPrefixOf l then some (l.drop 1)
    else if "на".data.isPrefixOf l then some (l.drop 2)
    else none
  match afterKw with
  | some r => (takeYear4 (skipWs r)).map Prod.fst
  | none => none

/-- The `months_ru` dict in insertion order. -/
def monthsRu : List (List Char × Nat) :=
  [("январ".data, 1), ("феврал".data, 2), ("март".data, 3), ("апрел".data, 4),
   ("ма".data, 5), ("июн".data, 6), ("июл".data, 7), ("август".data, 8),
   ("сентябр".data, 9), ("октябр".data, 10), ("ноябр".data, 11), ("декабр".data, 12)]

/-- The month loop: first month prefix contained anywhere in the question. -/
def firstMonth (ql : List Char) : Option (List Char × Nat) :=
  monthsRu.findSome? fun p => if listContains ql p.1 then some p else none

/-- Models `последни[ех]\s+(\d+)\s*(месяц|недел|дн)` at the head; returns the count
and the matched unit group. -/
def matchLastN (l : List Char) : Option (Nat × List Char) :=
  if "последни".data.isPrefixOf l then
    match l.drop 8 with
    | c :: t =>
      if c = 'е' ∨ c = 'х' then
        match t with
        | d :: t2 =>
          if d.isWhitespace then do
            let (n, r2) ← takeDigits1 (t2.dropWhile Char.isWhitespace)
            let r3 := r2.dropWhile Char.isWhitespace
            if "месяц".data.isPrefixOf r3 then some (n, "месяц".data)
            else if "недел".data.isPrefixOf r3 then some (n, "недел".data)
            else if "дн".data.isPrefixOf r3 then some (n, "дн".data)
            else none
          else none
        | [] => none
      else none
    | [] => none
  else none

/-- Models `RAGService._quarter_to_range`. -/
def quarterToRange (q y : Nat) : PyDateRange :=
  let startMonth := if q = 1 then 1 else if q = 2 then 4 else if q = 3 then 7 else 10
  let endMonth := if q = 1 then 3 else if q = 2 then 6 else if q = 3 then 9 else 12
  let ed := if endMonth = 12 then prevDay ⟨y + 1, 1, 1, 0, 0, 0⟩
            else prevDay ⟨y, endMonth + 1, 1, 0, 0, 0⟩
  { start := ⟨y, startMonth, 1, 0, 0, 0⟩,
    stop := ⟨ed.year, ed.month, ed.day, 23, 59, 59⟩,
    description := "Q" ++ toString q ++ " " ++ toString y }

/-- Models `RAGService._parse_date_range`, with `datetime.now()` passed explicitly.
The branches appear in exactly the order of the source. -/
def parseDateRange (now : PyDateTime) (question : String) : Option PyDateRange :=
  let ql := lowerChars question.data
  let currentYear := now.year
  match firstWordQuarter ql with
  | some q => some (quarterToRange q ((findYear4 ql).getD currentYear))
  | none =>
  match scanAux matchQ1 ql with
  | some p => some (quarterToRange p.1 p.2)
  | none =>
  match scanAux matchQ2 ql with
  | some p => some (quarterToRange p.1 p.2)
  | none =>
  match scanAux matchQ3 ql with
  | some p => some (quarterToRange p.1 p.2)
  | none =>
  match scanAux matchQ4 ql with
  | some q => some (quarterToRange q currentYear)
  | none =>
  if searchPast kvartalChars ql then
    let cq := (now.month - 1) / 3 + 1
    some (if cq = 1 then quarterToRange 4 (currentYear - 1)
          else quarterToRange (cq - 1) currentYear)
  else
  match scanAux matchYearExpr ql with
  | some y => some { start := ⟨y, 1, 1, 0, 0, 0⟩, stop := ⟨y, 12, 31, 23, 59, 59⟩,
                     description := toString y ++ " год" }
  | none =>
  if searchPast "год".data ql then
    let y := currentYear - 1
    some { start := ⟨y, 1, 1, 0, 0, 0⟩, stop := ⟨y, 12, 31, 23, 59, 59⟩,
           description := toString y ++ " год" }
  else
  match firstMonth ql with
  | some p =>
    let y := (findYear4 ql).getD currentYear
    let ed := if p.2 = 12 then prevDay ⟨y + 1, 1, 1, 0, 0, 0⟩
              else prevDay ⟨y, p.2 + 1, 1, 0, 0, 0⟩
    some { start := ⟨y, p.2, 1, 0, 0, 0⟩,
           stop := ⟨ed.year, ed.month, ed.day, 23, 59, 59⟩,
           description := String.mk p.1 ++ "* " ++ toString y }
  | none =>
  if searchPast "месяц".data ql then
    let lastPrev := prevDay ⟨now.year, now.month, 1, 0, 0, 0⟩
    some { start := ⟨lastPrev.year, lastPrev.month, 1, 0, 0, 0⟩,
           stop := ⟨lastPrev.year, lastPrev.month, lastPrev.day, 23, 59, 59⟩,
           description := "прошлый месяц" }
  else
  match scanAux matchLastN ql with
  | some p =>
    let days := if listContains p.2 "месяц".data then p.1 * 30
                else if listContains p.2 "недел".data then 7 * p.1
                else p.1
    some { start := subDays days now, stop := now,
           description := "последние " ++ toString p.1 ++ " " ++ String.mk p.2 ++ "*" }
  | none => none

/-! ### Concrete scenario data -/

/-- The `"x" * 60` text of the dedup-replay scenario. -/
def sampleText60 : String := String.mk (List.replicate 60 'x')

/-- Initial store of the dedup-replay scenario: one active room `1000` with a
NULL cursor and no rows. -/
def dedupInit : WatcherState := ⟨[], [], [⟨1000, none, true⟩]⟩

/-- The chat network holds the single message `(chat=1000, external_id=77)`. -/
def dedupNetwork : List NetworkMessage := [⟨1000, 77, some sampleText60⟩]

/-- Live delivery of the scenario message. -/
def dedupLive : WatcherState × Bool :=
  saveAndIndexMessage (fun _ => true) dedupInit 1000 77 (some sampleText60)

/-- A reconciler pass over all active rooms after the live delivery. -/
def dedupFinal : WatcherState := catchupAllChats (fun _ => true) dedupNetwork dedupLive.1

/-! ## Helper lemmas -/

theorem ratSub_eq (a b : ℚ) : ratSub a b = a - b := (Rat.sub_def' a b).symm

theorem mkRat_one_one : (mkRat 1 1 : ℚ) = 1 := by
  norm_num [mkRat, Rat.normalize]

theorem similarity_sub (r : ChunkRow) : similarity r = 1 - r.dist := by
  show ratSub (mkRat 1 1) r.dist = 1 - r.dist
  rw [ratSub_eq, mkRat_one_one]

theorem mem_rankedSelect {k : Nat} {s : ℚ} {rows : List ChunkRow} {r : ChunkRow} :
    r ∈ rankedSelect k s rows ↔ r ∈ rows ∧ chunkRank rows r ≤ k ∧ s < similarity r := by
  simp [rankedSelect, List.mem_filter]

theorem mem_of_mem_diversify {k n : Nat} {s : ℚ} {rows : List ChunkRow} {r : ChunkRow}
    (h : r ∈ diversify k n s rows) : r ∈ rankedSelect k s rows := by
  have h1 : r ∈ List.insertionSort simOrder (rankedSelect k s rows) :=
    List.take_subset _ _ h
  exact (List.mem_insertionSort simOrder).mp h1

theorem find?_setCursor_rooms (l : List ChatRoomRow) (c v : Int) :
    (l.map (fun r => if r.id == c then { r with lastSyncedMessageId := some v } else r)).find?
        (fun r => r.id == c) =
      (l.find? (fun r => r.id == c)).map
        (fun r => { r with lastSyncedMessageId := some v }) := by
  induction l with
  | nil => rfl
  | cons r t ih =>
    by_cases h : (r.id == c) = true
    · have hp : r.id = c := by simpa using h
      simp [List.find?_cons, hp, -List.find?_map]
    · have hp : ¬ r.id = c := by simpa using h
      simp [List.find?_cons, hp, -List.find?_map]
      simpa using ih

theorem roomCursor_setCursor (st : WatcherState) (c v : Int) :
    roomCursor (setCursor st c v) c =
      if (st.rooms.find? (fun r => r.id == c)).isSome then some v else none := by
  unfold roomCursor setCursor
  rw [find?_setCursor_rooms]
  cases st.rooms.find? (fun r => r.id == c) <;> simp

theorem saveAndIndex_spec (embedOk : String → Bool) (st : WatcherState)
    (c m : Int) (t : Option String) :
    (saveAndIndexMessage embedOk st c m t).1 = st ∧
        (saveAndIndexMessage embedOk st c m t).2 = false
    ∨ (saveAndIndexMessage embedOk st c m t).2 = true ∧
        (saveAndIndexMessage embedOk st c m t).1.rooms =
          st.rooms.map (fun r =>
            if r.id == c then { r with lastSyncedMessageId := some m } else r) := by
  rcases t with _ | s
  · exact Or.inl ⟨rfl, rfl⟩
  · simp only [saveAndIndexMessage]
    split_ifs
    · exact Or.inl ⟨rfl, rfl⟩
    · exact Or.inl ⟨rfl, rfl⟩
    · exact Or.inr ⟨rfl, rfl⟩
    · exact Or.inl ⟨rfl, rfl⟩

theorem syncStep_foldl_embeddings (chatId : Int) (msgs : List NetworkMessage)
    (acc : WatcherState × Int × SyncStats) :
    ((msgs.foldl (syncStep chatId) acc).1).embeddings = acc.1.embeddings := by
  induction msgs generalizing acc with
  | nil => rfl
  | cons m t ih =>
    rw [List.foldl_cons, ih]
    unfold syncStep
    rcases hm : m.text with _ | s
    · rfl
    · simp only []
      split_ifs <;> rfl

theorem indexStep_foldl_mem (chatId : Int) (embedOk : String → Bool) :
    ∀ (l : List ChatMessageRow) (s : WatcherState) (e : ChatEmbeddingRow),
      e ∈ (l.foldl (indexStep chatId embedOk) s).embeddings →
      e ∈ s.embeddings ∨ ∃ msg ∈ l, e.chunkText = msg.text := by
  intro l
  induction l with
  | nil => exact fun s e h => Or.inl h
  | cons msg t ih =>
    intro s e h
    rw [List.foldl_cons] at h
    rcases ih _ _ h with h1 | ⟨m2, hm2, he⟩
    · unfold indexStep at h1
      split_ifs at h1 with hok
      · rcases List.mem_append.mp h1 with h2 | h2
        · exact Or.inl h2
        · have he : e = ⟨chatId, msg.messageId, msg.text, 0⟩ := by simpa using h2
          exact Or.inr ⟨msg, List.mem_cons_self msg t, by rw [he]⟩
      · exact Or.inl h1
    · exact Or.inr ⟨m2, List.mem_cons_of_mem _ hm2, he⟩

/-! ## Claims -/

/-- Claim C1.  The claim states that every POST to `/api/rag/ask` with a
valid body returns a 200 response built from `RAGService.ask`'s value.  In
fact `ask` returns a three-element tuple while the route body unpacks two
(`answer, sources = await rag.ask(...)`), so every valid request raises
`ValueError` inside the handler, which the `except Exception` branch turns
into an HTTP 500: the endpoint never returns 200. -/
theorem claim_C1_ask_route_returns_500 (answer : String) (ms ts : List ChunkRow) :
    askQuestionStatus answer ms ts = 500 ∧ ¬ askQuestionStatus answer ms ts = 200 :=
  ⟨rfl, by simp [askQuestionStatus, ragAskReturn, unpackPair]⟩

/-- Claim C2, counterexample.  The save-and-index path does not take a
maximum with the current cursor: with room 1000 at cursor 100, committing a
new message with external id 50 (length-60 text, embedding succeeding)
moves the cursor backward to 50. -/
theorem claim_C2_counterexample :
    roomCursor (⟨[], [], [⟨1000, some 100, true⟩]⟩ : WatcherState) 1000 = some 100 ∧
    (saveAndIndexMessage (fun _ => true) ⟨[], [], [⟨1000, some 100, true⟩]⟩ 1000 50
        (some (String.mk (List.replicate 60 'x')))).2 = true ∧
    roomCursor (saveAndIndexMessage (fun _ => true) ⟨[], [], [⟨1000, some 100, true⟩]⟩ 1000 50
        (some (String.mk (List.replicate 60 'x')))).1 1000 = some 50 ∧
    (50 : Int) < 100 := by
  refine ⟨by decide, by decide, by decide, by decide⟩

/-- Claim C2, amended.  A committing run of the save-and-index path sets the
room's `last_synced_message_id` to the message's external id unconditionally
(not to the max with the current cursor); a skipped or failed run leaves the
store unchanged.  Consequently the cursor is non-decreasing exactly when
commits arrive in non-decreasing external-id order, which the reconciler
guarantees (it walks ids above the cursor in ascending order) but an
out-of-order live event does not. -/
theorem claim_C2_cursor_set_unconditionally (embedOk : String → Bool)
    (st : WatcherState) (c m : Int) (t : Option String) :
    ((saveAndIndexMessage embedOk st c m t).2 = true →
      (st.rooms.find? (fun r => r.id == c)).isSome = true →
      roomCursor (saveAndIndexMessage embedOk st c m t).1 c = some m)
    ∧ ((saveAndIndexMessage embedOk st c m t).2 = false →
      (saveAndIndexMessage embedOk st c m t).1 = st)
    ∧ (∀ old v, roomCursor st c = some old → old ≤ m →
        roomCursor (saveAndIndexMessage embedOk st c m t).1 c = some v → old ≤ v) := by
  refine ⟨?_, ?_, ?_⟩
  · intro hs hfind
    rcases saveAndIndex_spec embedOk st c m t with ⟨_, h2⟩ | ⟨_, hr⟩
    · rw [hs] at h2; cases h2
    · unfold roomCursor
      rw [hr, find?_setCursor_rooms]
      rcases hf : st.rooms.find? (fun r => r.id == c) with _ | r
      · rw [hf] at hfind; cases hfind
      · simp [hf]
  · intro hs
    rcases saveAndIndex_spec embedOk st c m t with ⟨h1, _⟩ | ⟨h2, _⟩
    · exact h1
    · rw [h2] at hs; cases hs
  · intro old v h1 h2 h3
    rcases saveAndIndex_spec embedOk st c m t with ⟨hst, _⟩ | ⟨_, hr⟩
    · rw [hst, h1] at h3
      injection h3 with h
      omega
    · unfold roomCursor at h3
      rw [hr, find?_setCursor_rooms] at h3
      unfold roomCursor at h1
      rcases hf : st.rooms.find? (fun r => r.id == c) with _ | r
      · rw [hf] at h1; cases h1
      · rw [hf] at h3
        simp at h3
        omega

/-- Claim C2, witness for the amended theorem. -/
theorem claim_C2_witness :
    roomCursor (saveAndIndexMessage (fun _ => true)
        (⟨[], [], [⟨1000, some 10, true⟩]⟩ : WatcherState) 1000 77
        (some (String.mk (List.replicate 60 'x')))).1 1000 = some 77 :=
  (claim_C2_cursor_set_unconditionally (fun _ => true) ⟨[], [], [⟨1000, some 10, true⟩]⟩
    1000 77 (some (String.mk (List.replicate 60 'x')))).1 (by decide) (by decide)

/-- Claim C7.  Ingesting a message whose `(chat_id, external_id)` pair is
already persisted is a no-op on the store and reports skipped, whichever
path drives it (both the live handler and the reconciler funnel through
`_save_and_index_message`).  In the dedup-replay scenario — live delivery of
`(chat=1000, external_id=77, text="x"*60)` followed by a reconciler pass
over the same room — exactly 1 ChatMessage and 1 ChatEmbedding exist and
`last_synced_message_id = 77`; even a reconciler pass that re-fetches the
same message from scratch commits nothing. -/
theorem claim_C7_dedup_idempotent :
    (∀ (embedOk : String → Bool) (st : WatcherState) (c m : Int) (t : Option String),
        containsMessage st c m = true → saveAndIndexMessage embedOk st c m t = (st, false))
    ∧ dedupLive.2 = true
    ∧ dedupFinal.messages.length = 1
    ∧ dedupFinal.embeddings.length = 1
    ∧ roomCursor dedupFinal 1000 = some 77
    ∧ catchupChat (fun _ => true) dedupNetwork dedupLive.1 1000 none = (dedupLive.1, 0) := by
  refine ⟨?_, by decide, by decide, by decide, by decide, by decide⟩
  intro embedOk st c m t h
  rcases t with _ | s
  · rfl
  · simp only [saveAndIndexMessage]
    split_ifs <;> rfl

/-- Claim C7, witness: replaying the scenario message against the
post-scenario store is skipped and changes nothing. -/
theorem claim_C7_witness :
    saveAndIndexMessage (fun _ => true) dedupLive.1 1000 77 (some sampleText60) =
      (dedupLive.1, false) :=
  claim_C7_dedup_idempotent.1 (fun _ => true) dedupLive.1 1000 77 (some sampleText60)
    (by decide)

/-- Claim C8, counterexample.  The claim states every ingest path drops
texts shorter than 50 characters with no ChatMessage row and no cursor
change.  The backfill path `TelegramSyncService.sync_chat_messages`
persists a ChatMessage for the 2-character text `"ok"` and advances the
cursor to its id (only the embedding is withheld). -/
theorem claim_C8_counterexample :
    (syncChatMessages [⟨1000, 5, some "ok"⟩] ⟨[], [], [⟨1000, none, true⟩]⟩ 1000).map
        (fun p => (p.1.messages.length, p.1.embeddings.length, roomCursor p.1 1000)) =
      some (1, 0, some 5) ∧ "ok".length < minTextLength := by
  exact ⟨by decide, by decide⟩

/-- Claim C8, amended.  The live handler and the reconciler (both running
through `_save_and_index_message`) drop absent or sub-50-character texts
with no row and no cursor change; `sync_chat_messages` instead persists any
non-empty text regardless of length (and advances the cursor) but creates
no embedding, and the indexing pass `index_chat_messages` never creates an
embedding for a text shorter than its threshold — so the 50-character
threshold governs ChatEmbedding rows on every path, but not ChatMessage
rows on the backfill path. -/
theorem claim_C8_short_text_policy (embedOk : String → Bool) (st : WatcherState)
    (c m : Int) :
    saveAndIndexMessage embedOk st c m none = (st, false)
    ∧ (∀ s : String, s.length < minTextLength →
        saveAndIndexMessage embedOk st c m (some s) = (st, false))
    ∧ (∀ network p, syncChatMessages network st c = some p →
        p.1.embeddings = st.embeddings)
    ∧ (∀ minLen (e : ChatEmbeddingRow),
        e ∈ (indexChatMessages embedOk st c minLen).embeddings →
        e ∈ st.embeddings ∨ minLen ≤ e.chunkText.length) := by
  refine ⟨rfl, ?_, ?_, ?_⟩
  · intro s hs
    simp only [saveAndIndexMessage]
    rw [if_pos hs]
  · intro network p h
    unfold syncChatMessages at h
    rcases hf : st.rooms.find? (fun r => r.id == c) with _ | chat
    · rw [hf] at h; cases h
    · rw [hf] at h
      simp only [Option.some.injEq] at h
      rw [← h]
      show ((List.foldl (syncStep c) _ _).1).embeddings = st.embeddings
      exact syncStep_foldl_embeddings c _ _
  · intro minLen e he
    unfold indexChatMessages at he
    rcases indexStep_foldl_mem c embedOk _ _ _ he with h1 | ⟨msg, hmsg, he2⟩
    · exact Or.inl h1
    · right
      rw [he2]
      exact of_decide_eq_true (List.mem_filter.mp hmsg).2

/-- Claim C8, witness for the amended theorem. -/
theorem claim_C8_witness :
    saveAndIndexMessage (fun _ => true) (⟨[], [], []⟩ : WatcherState) 1 1 (some "ok") =
      ((⟨[], [], []⟩ : WatcherState), false) :=
  (claim_C8_short_text_policy (fun _ => true) ⟨[], [], []⟩ 1 1).2.1 "ok" (by decide)

/-- Claim C10, counterexample.  The claim states `_parse_date_range`
returns a range only for questions containing one of the listed temporal
expressions.  The month detection checks whether the two-character prefix
`"ма"` occurs anywhere in the question, so the purely non-temporal question
`"максимально подробно"` (which does not contain the month name `"май"`,
nor any other listed expression) yields a full May range of the current
year. -/
theorem claim_C10_counterexample :
    parseDateRange ⟨2026, 10, 12, 0, 0, 0⟩ "максимально подробно" =
      some ⟨⟨2026, 5, 1, 0, 0, 0⟩, ⟨2026, 5, 31, 23, 59, 59⟩, "ма* 2026"⟩ ∧
    listContains (lowerChars "максимально подробно".data) "май".data = false := by
  exact ⟨by decide, by decide⟩

/-- Claim C10, amended.  For questions containing a listed temporal
expression the parser produces inclusive-to-the-second bounds — for
`"что обсудили в Q4 2025?"` exactly `2025-10-01T00:00:00` to
`2025-12-31T23:59:59` with description `"Q4 2025"`, and analogously for
month names; a question with no match returns None — but the month
detection fires on the substring `"ма"` anywhere in the question, so
non-temporal questions containing it also yield a May range. -/
theorem claim_C10_date_ranges :
    parseDateRange ⟨2026, 10, 12, 0, 0, 0⟩ "что обсудили в Q4 2025?" =
      some ⟨⟨2025, 10, 1, 0, 0, 0⟩, ⟨2025, 12, 31, 23, 59, 59⟩, "Q4 2025"⟩ ∧
    parseDateRange ⟨2026, 10, 12, 0, 0, 0⟩ "что было в марте 2024?" =
      some ⟨⟨2024, 3, 1, 0, 0, 0⟩, ⟨2024, 3, 31, 23, 59, 59⟩, "март* 2024"⟩ ∧
    parseDateRange ⟨2026, 10, 12, 0, 0, 0⟩ "привет" = none ∧
    parseDateRange ⟨2026, 10, 12, 0, 0, 0⟩ "зимняя тема" =
      some ⟨⟨2026, 5, 1, 0, 0, 0⟩, ⟨2026, 5, 31, 23, 59, 59⟩, "ма* 2026"⟩ := by
  refine ⟨by decide, by decide, by decide, by decide⟩

/-- Claim C6, counterexample.  `reindex_meeting` commits the deletion of the
old rows in its own transaction before indexing: with two pre-existing rows
for meeting 1 and a failing embedding call, the operation ends with an
error and zero rows for the meeting — the pre-existing rows do not remain.
Even on success, the committed-state trace contains a state with the old
rows removed and the new rows absent. -/
theorem claim_C6_counterexample :
    reindexMeeting (fun t => [t]) (fun _ => false)
        ⟨[⟨1, some "hello world"⟩], [⟨1, "old0", 0⟩, ⟨1, "old1", 1⟩]⟩ 1 =
      (⟨[⟨1, some "hello world"⟩], []⟩,
       [⟨[⟨1, some "hello world"⟩], []⟩], Except.error ()) ∧
    reindexMeeting (fun t => [t]) (fun _ => true)
        ⟨[⟨1, some "hello world"⟩], [⟨1, "old0", 0⟩, ⟨1, "old1", 1⟩]⟩ 1 =
      (⟨[⟨1, some "hello world"⟩], [⟨1, "hello world", 0⟩]⟩,
       [⟨[⟨1, some "hello world"⟩], []⟩,
        ⟨[⟨1, some "hello world"⟩], [⟨1, "hello world", 0⟩]⟩], Except.ok 1) := by
  exact ⟨by decide, by decide⟩

/-- Claim C6, amended.  `reindex_meeting` is delete-then-insert in two
separate transactions, not one: the deletion commit leaves a durable state
with no rows for the meeting; if the subsequent indexing fails, the
pre-existing rows are already gone; when indexing succeeds, the final rows
for the meeting are exactly the freshly chunked rows with dense indices. -/
theorem claim_C6_reindex_two_transactions (chunkFn : String → List String)
    (embedDocs : List String → Bool) (st : MeetingStore) (mid : Nat) :
    (∀ st1, (reindexMeeting chunkFn embedDocs st mid).2.1.head? = some st1 →
        ∀ e ∈ st1.embeddings, ¬ e.meetingId = mid)
    ∧ ((reindexMeeting chunkFn embedDocs st mid).2.2 = Except.error () →
        ∀ e ∈ (reindexMeeting chunkFn embedDocs st mid).1.embeddings, ¬ e.meetingId = mid)
    ∧ (∀ meeting tr, st.meetings.find? (fun x => x.id == mid) = some meeting →
        meeting.transcript = some tr → ¬ tr = "" → ¬ chunkFn tr = [] →
        embedDocs (chunkFn tr) = true →
        (reindexMeeting chunkFn embedDocs st mid).2.2 = Except.ok (chunkFn tr).length
        ∧ ((reindexMeeting chunkFn embedDocs st mid).1.embeddings.filter
            (fun e => e.meetingId == mid)) =
          (chunkFn tr).enum.map (fun p => ⟨mid, p.2, p.1⟩)) := by
  have hclean : ∀ e ∈ (st.embeddings.filter (fun e => !(e.meetingId == mid))),
      ¬ e.meetingId = mid := by
    intro e he
    have h2 := (List.mem_filter.mp he).2
    simpa using h2
  refine ⟨?_, ?_, ?_⟩
  · intro st1 hh
    rcases hidx : indexMeeting chunkFn embedDocs
        { st with embeddings := st.embeddings.filter (fun e => !(e.meetingId == mid)) } mid
      with u | p
    · simp only [reindexMeeting, hidx, List.head?] at hh
      injection hh with hh
      rw [← hh]
      exact hclean
    · simp only [reindexMeeting, hidx, List.singleton_append, List.head?] at hh
      injection hh with hh
      rw [← hh]
      exact hclean
  · intro herr
    rcases hidx : indexMeeting chunkFn embedDocs
        { st with embeddings := st.embeddings.filter (fun e => !(e.meetingId == mid)) } mid
      with u | p
    · simp only [reindexMeeting, hidx]
      exact hclean
    · simp only [reindexMeeting, hidx] at herr
      exact Except.noConfusion herr
  · intro meeting tr hfind htr htr0 hchunks hemb
    have hany : (st.embeddings.filter (fun e => !(e.meetingId == mid))).any
        (fun e => e.meetingId == mid) = false := by
      rw [Bool.eq_false_iff]
      intro hx
      rcases List.any_eq_true.mp hx with ⟨e, he, hp⟩
      exact absurd (by simpa using hp) (hclean e he)
    have hfind1 : (MeetingStore.mk st.meetings
        (st.embeddings.filter (fun e => !(e.meetingId == mid)))).meetings.find?
          (fun x => x.id == mid) = some meeting := hfind
    have hidx : indexMeeting chunkFn embedDocs
        { st with embeddings := st.embeddings.filter (fun e => !(e.meetingId == mid)) } mid =
        Except.ok (MeetingStore.mk st.meetings
            ((st.embeddings.filter (fun e => !(e.meetingId == mid))) ++
              (chunkFn tr).enum.map (fun p => MeetingEmbeddingRow.mk mid p.2 p.1)),
          (chunkFn tr).length) := by
      simp only [indexMeeting, hfind1, htr, hany, if_neg htr0, Bool.false_eq_true,
        if_false, if_neg hchunks, if_pos hemb]
    have hlen : 0 < (chunkFn tr).length := List.length_pos.mpr hchunks
    constructor
    · simp only [reindexMeeting, hidx]
    · simp only [reindexMeeting, hidx]
      rw [List.filter_append]
      have hfirst : ((st.embeddings.filter (fun e => !(e.meetingId == mid))).filter
          (fun e => e.meetingId == mid)) = [] := by
        rw [List.filter_eq_nil_iff]
        intro e he
        exact fun hp => absurd (by simpa using hp) (hclean e he)
      have hsecond : (((chunkFn tr).enum.map
          (fun p => ({ meetingId := mid, chunkText := p.2, chunkIndex := p.1 } :
            MeetingEmbeddingRow))).filter (fun e => e.meetingId == mid)) =
          (chunkFn tr).enum.map (fun p => ⟨mid, p.2, p.1⟩) := by
        apply List.filter_eq_self.mpr
        intro e he
        rcases List.mem_map.mp he with ⟨p, _, hpe⟩
        rw [← hpe]
        exact beq_self_eq_true mid
      rw [hfirst, hsecond, List.nil_append]

/-- Claim C6, witness for the amended theorem. -/
theorem claim_C6_witness :
    (reindexMeeting (fun t => [t]) (fun _ => true)
        ⟨[⟨1, some "hello world"⟩], [⟨1, "old0", 0⟩, ⟨1, "old1", 1⟩]⟩ 1).2.2 =
      Except.ok 1 :=
  ((claim_C6_reindex_two_transactions (fun t => [t]) (fun _ => true)
      ⟨[⟨1, some "hello world"⟩], [⟨1, "old0", 0⟩, ⟨1, "old1", 1⟩]⟩ 1).2.2
    ⟨1, some "hello world"⟩ "hello world" (by decide) rfl (by decide) (by decide) rfl).1

/-- Concrete evaluation of the diversification-bound scenario. -/
theorem diversify_demo_eval :
    diversify 2 10 0
        [⟨0, 1, mkRat 10 100, true, true, true⟩, ⟨1, 1, mkRat 11 100, true, true, true⟩,
         ⟨2, 1, mkRat 12 100, true, true, true⟩, ⟨3, 1, mkRat 13 100, true, true, true⟩,
         ⟨4, 1, mkRat 14 100, true, true, true⟩, ⟨5, 2, mkRat 15 100, true, true, true⟩,
         ⟨6, 2, mkRat 16 100, true, true, true⟩] =
      [⟨0, 1, mkRat 10 100, true, true, true⟩, ⟨1, 1, mkRat 11 100, true, true, true⟩,
       ⟨5, 2, mkRat 15 100, true, true, true⟩, ⟨6, 2, mkRat 16 100, true, true, true⟩] := by
  decide

/-- Concrete evaluation of the one-row diversified query. -/
theorem diversify_single_eval :
    diversify 1 10 0 [(⟨0, 1, mkRat 1 2, true, true, true⟩ : ChunkRow)] =
      [⟨0, 1, mkRat 1 2, true, true, true⟩] := by
  decide

/-- Claim C3.  The diversified query (shared by
`search_similar_diversified` and `search_telegram_diversified`) returns
exactly the candidate rows whose within-group rank by cosine distance is at
most `max_per_group` and whose similarity exceeds `min_similarity`, sorted
globally by similarity descending and truncated to `max_total`; with 5
chunks of group A at similarities 0.90–0.86 and 2 of group B at 0.85, 0.84,
the call with `max_per_group=2, max_total=10, min_similarity=0` returns
exactly the top two of A followed by the two of B. -/
theorem claim_C3_diversified_search :
    (∀ (k n : Nat) (s : ℚ) (rows : List ChunkRow),
        (∀ r ∈ diversify k n s rows, r ∈ rows ∧ chunkRank rows r ≤ k ∧ s < similarity r)
      ∧ ((rankedSelect k s rows).length ≤ n →
          ∀ r ∈ rows, chunkRank rows r ≤ k → s < similarity r → r ∈ diversify k n s rows)
      ∧ List.Pairwise (fun a b => similarity b ≤ similarity a) (diversify k n s rows)
      ∧ (diversify k n s rows).length = min n (rankedSelect k s rows).length)
    ∧ diversify 2 10 0
        [⟨0, 1, mkRat 10 100, true, true, true⟩, ⟨1, 1, mkRat 11 100, true, true, true⟩,
         ⟨2, 1, mkRat 12 100, true, true, true⟩, ⟨3, 1, mkRat 13 100, true, true, true⟩,
         ⟨4, 1, mkRat 14 100, true, true, true⟩, ⟨5, 2, mkRat 15 100, true, true, true⟩,
         ⟨6, 2, mkRat 16 100, true, true, true⟩] =
      [⟨0, 1, mkRat 10 100, true, true, true⟩, ⟨1, 1, mkRat 11 100, true, true, true⟩,
       ⟨5, 2, mkRat 15 100, true, true, true⟩, ⟨6, 2, mkRat 16 100, true, true, true⟩] := by
  refine ⟨?_, diversify_demo_eval⟩
  · intro k n s rows
    refine ⟨?_, ?_, ?_, ?_⟩
    · intro r hr
      exact mem_rankedSelect.mp (mem_of_mem_diversify hr)
    · intro hn r hrows hk hs
      have hmem : r ∈ rankedSelect k s rows := mem_rankedSelect.mpr ⟨hrows, hk, hs⟩
      have hlen : (List.insertionSort simOrder (rankedSelect k s rows)).length ≤ n := by
        rw [List.length_insertionSort]
        exact hn
      unfold diversify
      rw [List.take_of_length_le hlen]
      exact (List.mem_insertionSort simOrder).mpr hmem
    · have hsorted : List.Sorted simOrder
          (List.insertionSort simOrder (rankedSelect k s rows)) :=
        List.sorted_insertionSort simOrder (rankedSelect k s rows)
      have hsub : List.Sublist (diversify k n s rows)
          (List.insertionSort simOrder (rankedSelect k s rows)) := List.take_sublist n _
      refine (hsorted.sublist hsub).imp fun h => ?_
      rw [similarity_sub, similarity_sub]
      exact sub_le_sub_left h 1
    · unfold diversify
      rw [List.length_take, List.length_insertionSort]

/-- Claim C3, witness for the general part. -/
theorem claim_C3_witness :
    (⟨0, 1, mkRat 1 2, true, true, true⟩ : ChunkRow) ∈
        [(⟨0, 1, mkRat 1 2, true, true, true⟩ : ChunkRow)] ∧
    chunkRank [(⟨0, 1, mkRat 1 2, true, true, true⟩ : ChunkRow)]
        ⟨0, 1, mkRat 1 2, true, true, true⟩ ≤ 1 ∧
    (0 : ℚ) < similarity ⟨0, 1, mkRat 1 2, true, true, true⟩ :=
  (claim_C3_diversified_search.1 1 10 0 [⟨0, 1, mkRat 1 2, true, true, true⟩]).1
    ⟨0, 1, mkRat 1 2, true, true, true⟩
    (by rw [diversify_single_eval]
        exact List.mem_cons_self _ _)

/-- Claim C4.  The meeting-side cascade of `RAGService.ask` follows the
policy table: with any filter present the first search uses
`(max_per_group=2, max_total=20, min_similarity=0.15)` with all present
filters; under 3 results with a date range, it retries with the range
dropped and the other parameters unchanged; still under 3 with a title
filter, it retries with the title dropped and
`(max_per_group=1, max_total=15, min_similarity=0.20)`; with no filter it
searches once with the latter parameters. -/
theorem claim_C4_meeting_cascade (rows : List ChunkRow) (hc ht hd : Bool) :
    ((ht || hc || hd) = false →
      askMeetingSide rows hc ht hd = searchSimilarDiversified 1 15 (1/5) false false false rows)
    ∧ ((ht || hc || hd) = true →
        (3 ≤ (searchSimilarDiversified 2 20 (3/20) hc ht hd rows).length →
          askMeetingSide rows hc ht hd = searchSimilarDiversified 2 20 (3/20) hc ht hd rows)
      ∧ ((searchSimilarDiversified 2 20 (3/20) hc ht hd rows).length < 3 → hd = true →
          (3 ≤ (searchSimilarDiversified 2 20 (3/20) hc ht false rows).length ∨ ht = false) →
          askMeetingSide rows hc ht hd = searchSimilarDiversified 2 20 (3/20) hc ht false rows)
      ∧ ((searchSimilarDiversified 2 20 (3/20) hc ht hd rows).length < 3 → ht = true →
          (hd = true → (searchSimilarDiversified 2 20 (3/20) hc ht false rows).length < 3) →
          askMeetingSide rows hc ht hd =
            searchSimilarDiversified 1 15 (1/5) hc false false rows)) := by
  constructor
  · intro h
    have hn : ¬ (ht || hc || hd) = true := by simp [h]
    simp [askMeetingSide, hn]
  · intro h
    refine ⟨?_, ?_, ?_⟩
    · intro h3
      have hn1 : ¬ ((searchSimilarDiversified 2 20 (3/20) hc ht hd rows).length < 3 ∧
          hd = true) := fun hx => absurd hx.1 (by omega)
      have hn2 : ¬ ((searchSimilarDiversified 2 20 (3/20) hc ht hd rows).length < 3 ∧
          ht = true) := fun hx => absurd hx.1 (by omega)
      simp [askMeetingSide, h, if_neg hn1, if_neg hn2]
    · intro h3 h4 h5
      have hn2 : ¬ ((searchSimilarDiversified 2 20 (3/20) hc ht false rows).length < 3 ∧
          ht = true) := by
        rcases h5 with h5 | h5
        · exact fun hx => absurd hx.1 (by omega)
        · exact fun hx => by rw [h5] at hx; cases hx.2
      simp [askMeetingSide, h, if_pos (And.intro h3 h4), if_neg hn2]
    · intro h3 h4 h5
      by_cases hdd : hd = true
      · have hb := h5 hdd
        simp [askMeetingSide, h, if_pos (And.intro h3 hdd), if_pos (And.intro hb h4)]
      · have hn1 : ¬ ((searchSimilarDiversified 2 20 (3/20) hc ht hd rows).length < 3 ∧
            hd = true) := fun hx => hdd hx.2
        simp [askMeetingSide, h, if_neg hn1, if_pos (And.intro h3 h4)]

/-- Claim C4, witness (the no-filter row of the table). -/
theorem claim_C4_witness :
    askMeetingSide [] false false false =
      searchSimilarDiversified 1 15 (1/5) false false false [] :=
  (claim_C4_meeting_cascade [] false false false).1 rfl

/-- Claim C5.  Every result of the diversified query carries
`similarity = 1 - cosine_distance`, and under the facts true at every call
site — `min_similarity ≥ 0` (the cascade uses 0.15 and 0.20) and cosine
distance non-negative — every returned similarity lies in [0, 1]. -/
theorem claim_C5_similarity_bounds (k n : Nat) (s : ℚ) (rows : List ChunkRow)
    (hs : 0 ≤ s) (hd : ∀ r ∈ rows, 0 ≤ r.dist) :
    ∀ r ∈ diversify k n s rows,
      similarity r = 1 - r.dist ∧ 0 ≤ similarity r ∧ similarity r ≤ 1 := by
  intro r hr
  have h1 := mem_rankedSelect.mp (mem_of_mem_diversify hr)
  refine ⟨similarity_sub r, ?_, ?_⟩
  · have h2 := h1.2.2
    linarith
  · have h2 := hd r h1.1
    rw [similarity_sub]
    linarith

/-- Claim C5, witness. -/
theorem claim_C5_witness :
    0 ≤ similarity ⟨0, 1, mkRat 1 2, true, true, true⟩ ∧
    similarity ⟨0, 1, mkRat 1 2, true, true, true⟩ ≤ 1 := by
  have h := claim_C5_similarity_bounds 1 10 0 [⟨0, 1, mkRat 1 2, true, true, true⟩] le_rfl
    (by intro r hr
        rw [List.mem_singleton] at hr
        rw [hr]
        decide)
    ⟨0, 1, mkRat 1 2, true, true, true⟩
    (by rw [diversify_single_eval]
        exact List.mem_cons_self _ _)
  exact ⟨h.2.1, h.2.2⟩

theorem scanWords_fold (q name : List Char) :
    ∀ (ws : List (List Char)) (b : Option (List Char) × Nat),
      ws.foldl
        (fun b w =>
          if 3 < w.length then
            if listContains q w then
              if b.2 < w.length then (some name, w.length) else b
            else b
          else b)
        b =
      if b.2 < wordsMax q ws then (some name, wordsMax q ws) else b := by
  intro ws
  induction ws with
  | nil =>
    intro b
    simp [wordsMax]
  | cons w t ih =>
    intro b
    have hstep :
        (if 3 < w.length then
          if listContains q w then
            if b.2 < w.length then (some name, w.length) else b
          else b
        else b) =
        if b.2 < wordScore q w then (some name, wordScore q w) else b := by
      unfold wordScore
      split_ifs <;> simp_all
    simp only [List.foldl_cons]
    rw [hstep, ih]
    rw [show wordsMax q (w :: t) = max (wordScore q w) (wordsMax q t) from rfl]
    by_cases h1 : b.2 < wordScore q w
    · rw [if_pos h1]
      dsimp only
      by_cases h2 : wordScore q w < wordsMax q t
      · rw [if_pos h2, if_pos (lt_max_iff.mpr (Or.inl h1)),
          Nat.max_eq_right (le_of_lt h2)]
      · rw [if_neg h2, if_pos (lt_max_iff.mpr (Or.inl h1)),
          Nat.max_eq_left (Nat.le_of_not_lt h2)]
    · rw [if_neg h1]
      by_cases h3 : b.2 < wordsMax q t
      · rw [if_pos h3, if_pos (lt_max_iff.mpr (Or.inr h3)),
          Nat.max_eq_right (le_of_lt (lt_of_le_of_lt (Nat.le_of_not_lt h1) h3))]
      · rw [if_neg h3,
          if_neg (not_lt.mpr (max_le (Nat.le_of_not_lt h1) (Nat.le_of_not_lt h3)))]

theorem scanWords_eq (q name : List Char) (b : Option (List Char) × Nat) :
    scanWords q name b =
      if b.2 < wordsMax q (splitWs (lowerChars name)) then
        (some name, wordsMax q (splitWs (lowerChars name)))
      else b :=
  scanWords_fold q name (splitWs (lowerChars name)) b

theorem matchStep_eq (q : List Char) (b : Option (List Char) × Nat) (name : List Char) :
    matchStep q b name =
      if b.2 < clientScore q name then (some name, clientScore q name) else b := by
  by_cases hc : listContains q (lowerChars name) = true
  · simp [matchStep, clientScore, hc]
  · have hc' : listContains q (lowerChars name) = false := by simpa using hc
    simp only [matchStep, clientScore, hc', Bool.false_eq_true, if_false]
    exact scanWords_eq q name b

theorem le_maxClientScore (q : List Char) :
    ∀ {names : List (List Char)} {n : List Char}, n ∈ names →
      clientScore q n ≤ maxClientScore q names := by
  intro names
  induction names with
  | nil => intro n hn; cases hn
  | cons m t ih =>
    intro n hn
    rcases List.mem_cons.mp hn with h | h
    · rw [h]
      exact le_max_left _ _
    · exact le_trans (ih h) (le_max_right _ _)

theorem bestFold_spec (q : List Char) :
    ∀ (names : List (List Char)) (b : Option (List Char) × Nat),
      (names.foldl (matchStep q) b).2 = max b.2 (maxClientScore q names)
      ∧ (names.foldl (matchStep q) b = b ∨
         ∃ n ∈ names, (names.foldl (matchStep q) b).1 = some n ∧
           (names.foldl (matchStep q) b).2 = clientScore q n ∧
           b.2 < (names.foldl (matchStep q) b).2) := by
  intro names
  induction names with
  | nil =>
    intro b
    constructor
    · simp [maxClientScore]
    · exact Or.inl rfl
  | cons n t ih =>
    intro b
    obtain ⟨ih1, ih2⟩ := ih (matchStep q b n)
    have hble : b.2 ≤ (matchStep q b n).2 := by
      rw [matchStep_eq]
      split_ifs with h1
      · exact le_of_lt h1
      · exact le_rfl
    constructor
    · simp only [List.foldl_cons]
      rw [ih1, matchStep_eq]
      rw [show maxClientScore q (n :: t) = max (clientScore q n) (maxClientScore q t)
        from rfl]
      by_cases h1 : b.2 < clientScore q n
      · rw [if_pos h1]
        dsimp only
        rw [← Nat.max_assoc, Nat.max_eq_right (le_of_lt h1)]
      · rw [if_neg h1]
        rw [← Nat.max_assoc, Nat.max_eq_left (Nat.le_of_not_lt h1)]
    · simp only [List.foldl_cons]
      rcases ih2 with he | ⟨m, hm, hfst, hsnd, hlt⟩
      · rw [he, matchStep_eq]
        by_cases h1 : b.2 < clientScore q n
        · right
          refine ⟨n, List.mem_cons_self n t, ?_, ?_, ?_⟩
          · rw [if_pos h1]
          · rw [if_pos h1]
          · rw [if_pos h1]
            dsimp only
            exact h1
        · left
          rw [if_neg h1]
      · right
        exact ⟨m, List.mem_cons_of_mem n hm, hfst, hsnd, lt_of_le_of_lt hble hlt⟩

/-- Claim C9, counterexample.  The claim states that whole-name occurrences
take priority, the token fallback running only when no candidate's whole
name occurs.  In the code a single `best_match_len` is shared by both kinds
of match: with candidates "Acme" (whole name present in the question) and
"Mega Corporation Ltd" (whole name absent, token "corporation" present),
the longer token wins over the whole-name match. -/
theorem claim_C9_counterexample :
    findClientFilter ["Acme - Weekly", "Mega Corporation Ltd - Sync"]
        "Что обсуждали с Acme и corporation?" = some "Mega Corporation Ltd"
    ∧ listContains (lowerChars "Что обсуждали с Acme и corporation?".data)
        (lowerChars "Acme".data) = true
    ∧ listContains (lowerChars "Что обсуждали с Acme и corporation?".data)
        (lowerChars "Mega Corporation Ltd".data) = false := by
  exact ⟨by decide, by decide, by decide⟩

/-- Claim C9, amended.  Both filter-inference functions run one shared
best-match loop: each candidate scores by the length of its whole
lowercased name when that occurs in the lowercased question, and otherwise
by the length of its longest token of more than 3 characters occurring in
the question; the candidate with the strictly greatest score wins,
regardless of which kind of match produced it (whole-name matches have no
priority).  If no candidate scores, the result is None and the unfiltered
cascade branch runs. -/
theorem claim_C9_best_match (names : List (List Char)) (q : List Char) :
    (bestClientMatch names q = none ↔ ∀ n ∈ names, clientScore q n = 0)
    ∧ (∀ c, bestClientMatch names q = some c →
        c ∈ names ∧ 0 < clientScore q c ∧
          ∀ n ∈ names, clientScore q n ≤ clientScore q c)
    ∧ (∀ titles question, findClientFilter titles question =
        (bestClientMatch (extractClientNames (titles.map String.data))
          (lowerChars question.data)).map fun l => String.mk l)
    ∧ (∀ cns question, findTelegramClientFilter cns question =
        (bestClientMatch (cns.map String.data) (lowerChars question.data)).map
          fun l => String.mk l) := by
  obtain ⟨h1, h2⟩ := bestFold_spec q names (none, 0)
  have hsnd : (names.foldl (matchStep q) (none, 0)).2 = maxClientScore q names := by
    rw [h1]
    exact Nat.max_eq_right (Nat.zero_le _)
  refine ⟨⟨?_, ?_⟩, ?_, fun _ _ => rfl, fun _ _ => rfl⟩
  · intro hnone n hn
    rcases h2 with he | ⟨m, _, hfst, _, _⟩
    · have hM : maxClientScore q names = 0 := by
        rw [← hsnd, he]
      have := le_maxClientScore q hn
      omega
    · unfold bestClientMatch at hnone
      rw [hfst] at hnone
      cases hnone
  · intro hall
    rcases h2 with he | ⟨n, hn, _, hsnd2, hlt⟩
    · unfold bestClientMatch
      rw [he]
    · exfalso
      rw [hsnd2, hall n hn] at hlt
      exact Nat.lt_irrefl _ hlt
  · intro c hc
    rcases h2 with he | ⟨n, hn, hfst, hsnd2, hlt⟩
    · unfold bestClientMatch at hc
      rw [he] at hc
      cases hc
    · unfold bestClientMatch at hc
      rw [hfst] at hc
      injection hc with hc
      subst hc
      refine ⟨hn, ?_, ?_⟩
      · rw [← hsnd2]
        exact hlt
      · intro m hm
        rw [← hsnd2, hsnd]
        exact le_maxClientScore q hm

/-- Claim C9, witness for the amended theorem. -/
theorem claim_C9_witness :
    "acme".data ∈ ["acme".data] ∧
    0 < clientScore "обсуждали acme".data "acme".data := by
  have h := (claim_C9_best_match ["acme".data] "обсуждали acme".data).2.1 "acme".data
    (by decide)
  exact ⟨h.1, h.2.1⟩

end CCopilot
